import Mathlib

/-!
Verification development for the app-analysis pipeline.

Shallow embedding of the analytics pipeline's core components:

* `llm/feature_flags.py` — pattern matching (`_any_match`, `_count_hits`,
  `_signal_sources`), confidence scoring (`_confidence_from_sources`) and the
  row-emission condition of `detect_feature`;
* `etl/build_feature_matrix.py` — the pivot of the long-form feature table
  (`write_matrices`) and the sentiment collapse of `maybe_bundle`;
* `llm/irr.py` — the inter-rater agreement table;
* `etl/clean_apps.py` — the app-table deduplication.

Texts are modelled as `String`/`List Char`; a Python value that may be
`None`/`NaN`/non-string is modelled as `Option String` (`none` = not a
string).  Machine floats of the source hold only small decimal constants and
exact rationals here, so they are modelled as `ℚ`.
-/

namespace AppAnalysis

/-! ### Character-level model of the Python text primitives

The texts this pipeline matches are ASCII app metadata.  `lowerChar` models
`str.lower`, `isWordChar` models the regex class `\w`, `isSpaceChar` models
`\s` (Python's set of ASCII whitespace).
-/

/-- Model of Python `str.lower` on one character (ASCII letter range). -/
def lowerChar (c : Char) : Char :=
  if 65 ≤ c.toNat ∧ c.toNat ≤ 90 then Char.ofNat (c.toNat + 32) else c

/-- Model of the regex character class `\w` (word character). -/
def isWordChar (c : Char) : Bool :=
  c.isAlpha || c.isDigit || c == '_'

/-- Model of the regex character class `\s` (whitespace). -/
def isSpaceChar (c : Char) : Bool :=
  c == ' ' || c == '\t' || c == '\n' || c == '\r' || c == '\x0b' || c == '\x0c'

/-- The character list of a string after Python `str.lower`. -/
def lowerChars (s : String) : List Char :=
  s.data.map lowerChar

theorem toNat_ofNat_of_valid (n : Nat) (h : n.isValidChar) :
    (Char.ofNat n).toNat = n := by
  rw [Char.ofNat, dif_pos h]
  rfl

theorem lowerChar_idem (c : Char) : lowerChar (lowerChar c) = lowerChar c := by
  unfold lowerChar
  by_cases h : 65 ≤ c.toNat ∧ c.toNat ≤ 90
  · rw [if_pos h]
    have hv : (c.toNat + 32).isValidChar := by
      unfold Nat.isValidChar
      omega
    rw [if_neg]
    rw [toNat_ofNat_of_valid _ hv]
    omega
  · rw [if_neg h, if_neg h]

theorem lowerChars_lowerChars (s : String) :
    lowerChars ⟨lowerChars s⟩ = lowerChars s := by
  simp [lowerChars, Function.comp, lowerChar_idem]

/-! ### A regex engine for the shape of pattern used by `FEATURE_PATTERNS`

Every regex in `FEATURE_PATTERNS["blocking"]` has, after expanding the
alternations `(?:a|b)` and options `(?:x)?`, the shape

    \b chunk₁ \s* chunk₂ \s* … chunkₙ \b

where each `chunkᵢ` is a literal word.  A pattern is therefore embedded as a
list of alternatives, each alternative a list of literal chunks joined by
`\s*`.  Matching is pure existential semantics (some start position, some
whitespace widths), which coincides with the backtracking engine's accept
set for this pattern class.  The patterns are lowercase; `re.IGNORECASE`
search is modelled by matching against the lowercased text.
-/

/-- One regex, as alternatives of `\s*`-joined literal chunks. -/
abbrev RegexP : Type := List (List String)

/-- Whether position `i` of `t` holds a word character (out of range: no). -/
def wordAt (t : List Char) (i : Nat) : Bool :=
  match t.get? i with
  | some c => isWordChar c
  | none => false

/-- The regex word boundary `\b` at position `i` of `t`: word-ness differs
between the character before `i` and the character at `i`. -/
def boundaryAt (t : List Char) (i : Nat) : Bool :=
  (decide (0 < i) && wordAt t (i - 1)) != wordAt t i

/-- The literal chunk `w` occupies positions `[i, i + w.length)` of `t`. -/
def litAt (t : List Char) (i : Nat) (w : List Char) : Bool :=
  decide ((t.drop i).take w.length = w)

/-- Positions `[i, i+k)` of `t` exist and are all whitespace (`\s*` run). -/
def spacesAt (t : List Char) (i k : Nat) : Bool :=
  decide (i + k ≤ t.length) && ((t.drop i).take k).all isSpaceChar

/-- Match the remaining chunks of an alternative starting at position `i`,
each preceded by a `\s*` run, and finish on a word boundary. -/
def chunksFrom (t : List Char) : List (List Char) → Nat → Bool
  | [], i => boundaryAt t i
  | w :: ws, i =>
      (List.range (t.length + 1)).any fun k =>
        spacesAt t i k && litAt t (i + k) w && chunksFrom t ws (i + k + w.length)

/-- Match one alternative (chunk list) at start position `i`: word boundary,
first chunk, then the remaining chunks with `\s*` in between. -/
def altMatchAt (t : List Char) (alt : List (List Char)) (i : Nat) : Bool :=
  match alt with
  | [] => false
  | w :: ws => boundaryAt t i && litAt t i w && chunksFrom t ws (i + w.length)

/-- Model of `pattern.search(t)`: some alternative matches at some position. -/
def patSearch (p : RegexP) (t : List Char) : Bool :=
  (List.range (t.length + 1)).any fun i =>
    p.any fun alt => altMatchAt t (alt.map String.toList) i

/-! ### `FEATURE_PATTERNS["blocking"]` (`llm/feature_flags.py`, lines 22-32)

Each source regex is quoted in the comment above its translation; the
alternation/option expansion is written out alternative by alternative.
-/

/-- Source regex `\b(?:block|blocking|blocker|blacklist|whitelist)\b`. -/
def blocking_pat1 : RegexP :=
  [[ "block" ], [ "blocking" ], [ "blocker" ], [ "blacklist" ], [ "whitelist" ]]

/-- Source regex `\b(?:app|site|website)\s*block(?:er|ing)?\b`. -/
def blocking_pat2 : RegexP :=
  [[ "app", "block" ], [ "app", "blocker" ], [ "app", "blocking" ],
   [ "site", "block" ], [ "site", "blocker" ], [ "site", "blocking" ],
   [ "website", "block" ], [ "website", "blocker" ], [ "website", "blocking" ]]

/-- Source regex `\b(?:site|website)\s*filter(?:ing|s)?\b`. -/
def blocking_pat3 : RegexP :=
  [[ "site", "filter" ], [ "site", "filtering" ], [ "site", "filters" ],
   [ "website", "filter" ], [ "website", "filtering" ], [ "website", "filters" ]]

/-- Source regex `\bnuclear\s*option\b`. -/
def blocking_pat4 : RegexP := [[ "nuclear", "option" ]]

/-- Source regex `\bdistraction\s*block(?:er|ing)?\b`. -/
def blocking_pat5 : RegexP :=
  [[ "distraction", "block" ], [ "distraction", "blocker" ], [ "distraction", "blocking" ]]

/-- Source regex `\bporn\s*block(?:er|ing)?\b`. -/
def blocking_pat6 : RegexP :=
  [[ "porn", "block" ], [ "porn", "blocker" ], [ "porn", "blocking" ]]

/-- Source regex `\bsocial(?:\s*media)?\s*block(?:er|ing)?\b`. -/
def blocking_pat7 : RegexP :=
  [[ "social", "block" ], [ "social", "blocker" ], [ "social", "blocking" ],
   [ "social", "media", "block" ], [ "social", "media", "blocker" ],
   [ "social", "media", "blocking" ]]

/-- Source regex `\bshorts\s*block(?:er|ing)?\b`. -/
def blocking_pat8 : RegexP :=
  [[ "shorts", "block" ], [ "shorts", "blocker" ], [ "shorts", "blocking" ]]

/-- Source regex `\breels?\s*block(?:er|ing)?\b`. -/
def blocking_pat9 : RegexP :=
  [[ "reel", "block" ], [ "reel", "blocker" ], [ "reel", "blocking" ],
   [ "reels", "block" ], [ "reels", "blocker" ], [ "reels", "blocking" ]]

/-- Model of `FEATURE_PATTERNS["blocking"]`: the compiled pattern list for the
`blocking` feature. -/
def blocking_patterns : List RegexP :=
  [blocking_pat1, blocking_pat2, blocking_pat3, blocking_pat4, blocking_pat5,
   blocking_pat6, blocking_pat7, blocking_pat8, blocking_pat9]

/-! ### `llm/feature_flags.py`: matching helpers and the confidence scorer -/

/-- Model of `_any_match(text, patterns)` (lines 254-261): a non-string (`none`) or
empty text never matches; otherwise the text is lowercased and every
compiled pattern is tried. -/
def _any_match (text : Option String) (patterns : List RegexP) : Bool :=
  match text with
  | none => false
  | some s => if s = "" then false else patterns.any fun p => patSearch p (lowerChars s)

/-- Model of `_count_hits(series, patterns)` (lines 281-293): count the review rows
whose text fires at least one pattern; a non-string entry contributes no
hit.  (`p.search` under `re.IGNORECASE` is modelled by matching the
lowercased text; the series is already lowercased by `_load_reviews`.) -/
def _count_hits (series : List (Option String)) (patterns : List RegexP) : Nat :=
  series.countP fun text =>
    match text with
    | none => false
    | some s => patterns.any fun p => patSearch p (lowerChars s)

/-- Model of `_signal_sources(row, patterns)` (lines 264-278): the list of source
labels whose text matched; the driver's `flagged` is  this list being
non-empty.  `meta` stands for the concatenation built from category and
developer at the call site. -/
def _signal_sources (title description website_text meta : Option String)
    (patterns : List RegexP) : List String :=
  (if _any_match title patterns then ["title"] else []) ++
  (if _any_match description patterns then ["description"] else []) ++
  (if _any_match website_text patterns then ["website"] else []) ++
  (if _any_match meta patterns then ["metadata"] else [])

/-- Model of `_confidence_from_sources(sources, review_hits)` (lines 296-314).  The
source computes `s = len(set(sources))` and runs an if-chain; `set` is
modelled by `List.dedup`. -/
def _confidence_from_sources (sources : List String) (review_hits : Nat) : ℚ :=
  if 2 ≤ sources.dedup.length then 80/100
  else if sources.dedup.length = 1 ∧ 10 ≤ review_hits then 70/100
  else if sources.dedup.length = 1 then 60/100
  else if sources.dedup.length = 0 ∧ 25 ≤ review_hits then 55/100
  else 0

/-- The row-emission condition of `detect_feature` (line 352):
`if flagged or conf >= 0.55`, where `flagged` is `sources` being
non-empty. -/
def detect_feature_emits (sources : List String) (review_hits : Nat) : Bool :=
  decide (sources ≠ []) ||
    decide ((55 : ℚ)/100 ≤ _confidence_from_sources sources review_hits)

/-- Model of `round(conf, 2)` of the emitted row (line 356).  Python rounds
half-to-even; every emitted confidence times 100 is an integer, where all
rounding modes agree, so `round` to the nearest integer is faithful. -/
def round2 (x : ℚ) : ℚ :=
  (round (x * 100) : ℚ) / 100

/-- The confidence rule table exactly as the spec words it (section 4.4),
keyed by the number of distinct matched non-review sources and the review
hit count, with disjoint cases. -/
def spec_confidence_table (s review_hits : Nat) : ℚ :=
  if 2 ≤ s then 80/100
  else if s = 1 ∧ 10 ≤ review_hits then 70/100
  else if s = 1 ∧ review_hits < 10 then 60/100
  else if s = 0 ∧ 25 ≤ review_hits then 55/100
  else 0

/-- C1: for every evidence input the confidence scorer returns exactly the
spec's rule-table value (0.80 for ≥2 distinct sources; 0.70 for 1 source
with ≥10 review hits; 0.60 for 1 source with <10; 0.55 for 0 sources with
≥25; 0.00 otherwise), and the driver emits a Feature Label row if and only
if that confidence is nonzero. -/
theorem C1_confidence_rule_table (sources : List String) (review_hits : Nat) :
    _confidence_from_sources sources review_hits
      = spec_confidence_table sources.dedup.length review_hits
    ∧ (detect_feature_emits sources review_hits = true
        ↔ _confidence_from_sources sources review_hits ≠ 0) := by
  have hnil : sources.dedup.length = 0 ↔ sources = [] := by
    rw [List.length_eq_zero, List.dedup_eq_nil]
  constructor
  · unfold _confidence_from_sources spec_confidence_table
    split_ifs <;> first | rfl | omega
  · unfold detect_feature_emits _confidence_from_sources
    simp only [Bool.or_eq_true, decide_eq_true_eq]
    split_ifs with h1 h2 h3 h4 <;> try norm_num
    exact hnil.mp (by omega)

/-- C5: the confidence scorer is monotone: for fixed review hits the
confidence is non-decreasing in the number of distinct matched sources, and
for a fixed source list it is non-decreasing in the review-hit count. -/
theorem C5_confidence_monotone :
    (∀ (s₁ s₂ : List String) (rh : Nat),
        s₁.dedup.length ≤ s₂.dedup.length →
        _confidence_from_sources s₁ rh ≤ _confidence_from_sources s₂ rh)
    ∧ (∀ (sources : List String) (rh₁ rh₂ : Nat), rh₁ ≤ rh₂ →
        _confidence_from_sources sources rh₁ ≤ _confidence_from_sources sources rh₂) := by
  constructor
  · intro s₁ s₂ rh hle
    unfold _confidence_from_sources
    split_ifs <;> norm_num <;> omega
  · intro sources rh₁ rh₂ hle
    unfold _confidence_from_sources
    split_ifs <;> norm_num <;> omega

/-- Witness for C5 at concrete inputs: 0 sources vs 1 source at 30 review
hits, and 5 vs 15 review hits at one source. -/
theorem C5_confidence_monotone_witness :
    _confidence_from_sources [] 30 ≤ _confidence_from_sources ["title"] 30
    ∧ _confidence_from_sources ["title"] 5 ≤ _confidence_from_sources ["title"] 15 :=
  ⟨C5_confidence_monotone.1 [] ["title"] 30 (by decide),
   C5_confidence_monotone.2 ["title"] 5 15 (by omega)⟩

/-- C10: the confidence is always one of the five rule-table values (hence
within [0,1]), it depends only on the set of distinct source labels
(deduplicating the list changes nothing), and rounding the emitted value to
two decimals preserves it. -/
theorem C10_confidence_invariants (sources : List String) (review_hits : Nat) :
    (_confidence_from_sources sources review_hits = 0
      ∨ _confidence_from_sources sources review_hits = 55/100
      ∨ _confidence_from_sources sources review_hits = 60/100
      ∨ _confidence_from_sources sources review_hits = 70/100
      ∨ _confidence_from_sources sources review_hits = 80/100)
    ∧ 0 ≤ _confidence_from_sources sources review_hits
    ∧ _confidence_from_sources sources review_hits ≤ 1
    ∧ _confidence_from_sources sources.dedup review_hits
        = _confidence_from_sources sources review_hits
    ∧ round2 (_confidence_from_sources sources review_hits)
        = _confidence_from_sources sources review_hits := by
  have hvals : _confidence_from_sources sources review_hits = 0
      ∨ _confidence_from_sources sources review_hits = 55/100
      ∨ _confidence_from_sources sources review_hits = 60/100
      ∨ _confidence_from_sources sources review_hits = 70/100
      ∨ _confidence_from_sources sources review_hits = 80/100 := by
    unfold _confidence_from_sources
    split_ifs <;> norm_num
  refine ⟨hvals, ?_, ?_, ?_, ?_⟩
  · rcases hvals with h | h | h | h | h <;> rw [h] <;> norm_num
  · rcases hvals with h | h | h | h | h <;> rw [h] <;> norm_num
  · unfold _confidence_from_sources
    rw [List.dedup_idem]
  · rcases hvals with h | h | h | h | h <;> rw [h] <;>
      unfold round2 <;> norm_num

/-- Every successful chunk-sequence match ends on a word boundary at or
after its start position. -/
theorem chunksFrom_boundary (t : List Char) :
    ∀ (ws : List (List Char)) (i : Nat), chunksFrom t ws i = true →
      ∃ j, i ≤ j ∧ boundaryAt t j = true := by
  intro ws
  induction ws with
  | nil =>
      intro i h
      exact ⟨i, le_refl i, h⟩
  | cons w ws ih =>
      intro i h
      rw [chunksFrom, List.any_eq_true] at h
      obtain ⟨k, _, hk⟩ := h
      rw [Bool.and_eq_true, Bool.and_eq_true] at hk
      obtain ⟨j, hj1, hj2⟩ := ih (i + k + w.length) hk.2
      exact ⟨j, by omega, hj2⟩

/-- C4: pattern matching is whole-word and case-insensitive: the title
"blockchain" does not match the `blocking` patterns while "site blocker"
does; texts equal up to ASCII case match identically; and every successful
search starts some alternative at a word boundary and ends at a word
boundary. -/
theorem C4_whole_word_blocking :
    _any_match (some "blockchain") blocking_patterns = false
    ∧ _any_match (some "site blocker") blocking_patterns = true
    ∧ (∀ (s t : String) (patterns : List RegexP),
        lowerChars s = lowerChars t →
        _any_match (some s) patterns = _any_match (some t) patterns)
    ∧ (∀ (t : List Char) (p : RegexP), patSearch p t = true →
        ∃ i alt, alt ∈ p ∧ altMatchAt t (alt.map String.toList) i = true
          ∧ boundaryAt t i = true ∧ ∃ j, i ≤ j ∧ boundaryAt t j = true) := by
  refine ⟨by decide, by decide, ?_, ?_⟩
  · intro s t patterns h
    rcases s with ⟨sd⟩
    rcases t with ⟨td⟩
    simp only [lowerChars] at h
    have hlen : sd.length = td.length := by
      have := congrArg List.length h
      simpa using this
    by_cases hs : sd = []
    · subst hs
      have htd : td = [] := List.length_eq_zero.mp (by simpa using hlen.symm)
      subst htd
      rfl
    · have htd : td ≠ [] := by
        intro he
        subst he
        simp only [List.length_nil] at hlen
        exact hs (List.length_eq_zero.mp hlen)
      show (if (⟨sd⟩ : String) = "" then false
          else patterns.any fun p => patSearch p (lowerChars ⟨sd⟩))
        = if (⟨td⟩ : String) = "" then false
          else patterns.any fun p => patSearch p (lowerChars ⟨td⟩)
      rw [if_neg (fun he => hs (by simpa using congrArg String.data he)),
        if_neg (fun he => htd (by simpa using congrArg String.data he))]
      simp only [lowerChars]
      rw [h]
  · intro t p h
    rw [patSearch, List.any_eq_true] at h
    obtain ⟨i, _, hi⟩ := h
    rw [List.any_eq_true] at hi
    obtain ⟨alt, halt, hm⟩ := hi
    refine ⟨i, alt, halt, hm, ?_, ?_⟩
    · rcases hmap : alt.map String.toList with _ | ⟨w, ws⟩
      · rw [hmap] at hm
        exact absurd hm (by simp [altMatchAt])
      · rw [hmap] at hm
        simp only [altMatchAt, Bool.and_eq_true] at hm
        exact hm.1.1
    · rcases hmap : alt.map String.toList with _ | ⟨w, ws⟩
      · rw [hmap] at hm
        exact absurd hm (by simp [altMatchAt])
      · rw [hmap] at hm
        simp only [altMatchAt, Bool.and_eq_true] at hm
        obtain ⟨j, hj1, hj2⟩ := chunksFrom_boundary t ws (i + w.length) hm.2
        exact ⟨j, by omega, hj2⟩

/-- Witness for C4 at concrete inputs: an upper-case variant of
"site blocker" matches exactly like the lower-case text, and the successful
search of pattern 2 on "site blocker" yields a word-boundary span. -/
theorem C4_whole_word_blocking_witness :
    _any_match (some "SITE Blocker") blocking_patterns
      = _any_match (some "site blocker") blocking_patterns
    ∧ ∃ i alt, alt ∈ blocking_pat2
        ∧ altMatchAt (lowerChars "site blocker") (alt.map String.toList) i = true
        ∧ boundaryAt (lowerChars "site blocker") i = true
        ∧ ∃ j, i ≤ j ∧ boundaryAt (lowerChars "site blocker") j = true :=
  ⟨C4_whole_word_blocking.2.2.1 "SITE Blocker" "site blocker" blocking_patterns (by decide),
   C4_whole_word_blocking.2.2.2 (lowerChars "site blocker") blocking_pat2 (by decide)⟩

/-- C7: the evidence collector and the review corpus matcher are total on
missing input: a non-string (`none`) or empty text field yields no match
and no source label, and a non-string review text contributes zero hits —
never an error (the embedding functions are total Lean functions). -/
theorem C7_missing_fields_no_match :
    (∀ patterns : List RegexP, _any_match none patterns = false)
    ∧ (∀ patterns : List RegexP, _any_match (some "") patterns = false)
    ∧ (∀ (d w m : Option String) (patterns : List RegexP),
        _signal_sources none d w m patterns = _signal_sources (some "") d w m patterns
        ∧ "title" ∉ _signal_sources none d w m patterns)
    ∧ (∀ (series : List (Option String)) (patterns : List RegexP),
        _count_hits (none :: series) patterns = _count_hits series patterns) := by
  refine ⟨fun _ => rfl, fun patterns => by simp [_any_match], ?_, ?_⟩
  · intro d w m patterns
    constructor
    · simp [_signal_sources, _any_match]
    · have h0 : _any_match none patterns = false := rfl
      simp only [_signal_sources, h0, Bool.false_eq_true, if_false]
      split_ifs <;> decide
  · intro series patterns
    simp [_count_hits, List.countP_cons]

/-! ### `llm/irr.py`: the inter-rater agreement table

`main` pivots the rater table on `(app_key, feature)` × `model` with
`aggfunc="max"`, fills missing cells with 0 (`fillna(0).astype(int)`), and
for every index pair `i < j` of the (sorted) model columns appends one row
with `cohen_kappa_score` of the two full columns and `n = len(piv)`.

The pivot's row order (pandas sorts the index) is irrelevant to both the
kappa statistic and `len(piv)`, so the index is modelled in
first-appearance order.  `cohen_kappa_score` is float arithmetic in the
source, modelled exactly over `ℚ`; the source also rounds the emitted
kappa float to 3 decimals, which no claim depends on, so the row keeps the
exact value.  sklearn returns NaN when the chance agreement is 1 (the
division below then yields the junk value 0); no claim depends on that
value either.
-/

/-- One row of the rater table `features_llm.csv`
(`app_key, feature, model, present`). -/
structure LabelRow where
  app_key : String
  feature : String
  model : String
  present : Nat
deriving DecidableEq, Repr

/-- One row of the output agreement table `feature_irr.csv`. -/
structure AgreeRow where
  rater_a : String
  rater_b : String
  kappa : ℚ
  n : Nat
deriving DecidableEq, Repr

/-- The pivot index: the distinct `(app_key, feature)` pairs of the table
(pairs labeled by at least one model). -/
def pivotPairs (df : List LabelRow) : List (String × String) :=
  (df.map fun r => (r.app_key, r.feature)).dedup

/-- Lexicographic comparison of character lists by code point — the string
order pandas sorts by. -/
def charsLe : List Char → List Char → Bool
  | [], _ => true
  | _ :: _, [] => false
  | a :: as, b :: bs =>
      if a.toNat < b.toNat then true
      else if b.toNat < a.toNat then false
      else charsLe as bs

/-- Code-point lexicographic order on strings. -/
def strLeB (a b : String) : Bool := charsLe a.data b.data

/-- The pivot columns: the distinct model names, sorted as pandas sorts
pivot columns. -/
def pivotModels (df : List LabelRow) : List String :=
  List.insertionSort (fun a b => strLeB a b = true) ((df.map fun r => r.model).dedup)

/-- One pivot cell after `fillna(0)`: the max `present` over the rows of
this `(app_key, feature)` pair and model, 0 when the model never labeled
the pair. -/
def pivotCell (df : List LabelRow) (p : String × String) (m : String) : Nat :=
  ((df.filter fun r => r.app_key = p.1 ∧ r.feature = p.2 ∧ r.model = m).map
    fun r => r.present).foldr max 0

/-- One model's pivot column over the whole pivot index. -/
def pivotCol (df : List LabelRow) (m : String) : List Nat :=
  (pivotPairs df).map fun p => pivotCell df p m

/-- Model of `sklearn.metrics.cohen_kappa_score` on two label vectors:
observed agreement `po`, chance agreement `pe` from the label marginals,
kappa `(po - pe) / (1 - pe)`. -/
def cohen_kappa_score (xs ys : List Nat) : ℚ :=
  let n : ℚ := xs.length
  let po : ℚ := (((xs.zip ys).countP fun q => q.1 = q.2 : Nat) : ℚ) / n
  let pe : ℚ :=
    (((xs ++ ys).dedup.map fun v => ((xs.count v : ℚ) * (ys.count v : ℚ))).sum) / (n * n)
  (po - pe) / (1 - pe)

/-- All index pairs `i < j` of a list, in the nested-loop order of
`irr.py` lines 28-30. -/
def upairs {α : Type} : List α → List (α × α)
  | [] => []
  | x :: xs => (xs.map fun y => (x, y)) ++ upairs xs

/-- The agreement rows of `irr.py` `main` (lines 24-32): one row per model
pair `i < j`, kappa of the two full fillna'd columns, `n = len(piv)`.
(The `if len(models) >= 2` guard is implied: with fewer than 2 models the
pair loop is empty.) -/
def irr_rows (df : List LabelRow) : List AgreeRow :=
  (upairs (pivotModels df)).map fun q =>
    ⟨q.1, q.2, cohen_kappa_score (pivotCol df q.1) (pivotCol df q.2),
     (pivotPairs df).length⟩

/-- The `(app_key, feature)` pairs actually labeled by model `m` — the
spec's notion of what rater `m` labeled. -/
def labeledPairs (df : List LabelRow) (m : String) : List (String × String) :=
  ((df.filter fun r => r.model = m).map fun r => (r.app_key, r.feature)).dedup

/-- The overlap: pairs labeled by both raters. -/
def overlapPairs (df : List LabelRow) (a b : String) : List (String × String) :=
  (labeledPairs df a).filter fun p => p ∈ labeledPairs df b

/-- Concrete rater table: model `a` labels only `(x, f)`, model `b` labels
only `(y, g)` — the two raters overlap on no pair at all. -/
def irr_example_df : List LabelRow :=
  [⟨"x", "f", "a", 1⟩, ⟨"y", "g", "b", 1⟩]

/-- Counterexample to C3: on `irr_example_df` the two raters have an empty
overlap, yet the emitted agreement row reports `n = 2` (the number of
pairs labeled by either rater, each missing label imputed 0) — not the
overlap size 0, and not a kappa over overlapping pairs only. -/
theorem C3_overlap_counterexample :
    overlapPairs irr_example_df "a" "b" = []
    ∧ (irr_rows irr_example_df).map (fun r => (r.rater_a, r.rater_b, r.n))
        = [("a", "b", 2)] := by
  constructor
  · decide
  · decide

theorem upairs_mem {α : Type} : ∀ (l : List α) (p : α × α),
    p ∈ upairs l → p.1 ∈ l ∧ p.2 ∈ l := by
  intro l
  induction l with
  | nil =>
      intro p hp
      simp [upairs] at hp
  | cons x xs ih =>
      intro p hp
      rw [upairs, List.mem_append] at hp
      rcases hp with hp | hp
      · obtain ⟨y, hy, rfl⟩ := List.mem_map.mp hp
        exact ⟨List.mem_cons_self x xs, List.mem_cons_of_mem x hy⟩
      · obtain ⟨h1, h2⟩ := ih p hp
        exact ⟨List.mem_cons_of_mem x h1, List.mem_cons_of_mem x h2⟩

theorem upairs_ne {α : Type} : ∀ l : List α, l.Nodup → ∀ p ∈ upairs l, p.1 ≠ p.2 := by
  intro l
  induction l with
  | nil =>
      intro _ p hp
      simp [upairs] at hp
  | cons x xs ih =>
      intro hnd p hp
      rw [upairs, List.mem_append] at hp
      rcases hp with hp | hp
      · obtain ⟨y, hy, rfl⟩ := List.mem_map.mp hp
        intro he
        have he' : x = y := he
        rw [List.nodup_cons] at hnd
        exact hnd.1 (he' ▸ hy)
      · exact ih (List.Nodup.of_cons hnd) p hp

theorem upairs_complete {α : Type} : ∀ (l : List α) (a b : α),
    a ∈ l → b ∈ l → a ≠ b → (a, b) ∈ upairs l ∨ (b, a) ∈ upairs l := by
  intro l
  induction l with
  | nil =>
      intro a b ha
      simp at ha
  | cons x xs ih =>
      intro a b ha hb hne
      rw [List.mem_cons] at ha hb
      rcases ha with rfl | ha
      · rcases hb with rfl | hb
        · exact absurd rfl hne
        · left
          rw [upairs, List.mem_append]
          exact Or.inl (List.mem_map.mpr ⟨b, hb, rfl⟩)
      · rcases hb with rfl | hb
        · right
          rw [upairs, List.mem_append]
          exact Or.inl (List.mem_map.mpr ⟨a, ha, rfl⟩)
        · rcases ih a b ha hb hne with h | h
          · left
            rw [upairs, List.mem_append]
            exact Or.inr h
          · right
            rw [upairs, List.mem_append]
            exact Or.inr h

theorem upairs_length {α : Type} : ∀ l : List α,
    (upairs l).length = Nat.choose l.length 2 := by
  intro l
  induction l with
  | nil => rfl
  | cons x xs ih =>
      rw [upairs, List.length_append, List.length_map, ih, List.length_cons,
        Nat.choose_succ_succ, Nat.choose_one_right]

theorem pivotModels_nodup (df : List LabelRow) : (pivotModels df).Nodup :=
  (List.perm_insertionSort _ _).symm.nodup (List.nodup_dedup _)

/-- C3, amended: each agreement row's `n` and kappa are computed over the
set of distinct `(app_key, feature)` pairs labeled by at least one rater
(the fillna'd pivot index) — not over the pair's overlap; there is exactly
one row per unordered pair of distinct raters. -/
theorem C3_agreement_over_union (df : List LabelRow) :
    (∀ r ∈ irr_rows df,
      r.n = (pivotPairs df).length
      ∧ r.rater_a ∈ pivotModels df ∧ r.rater_b ∈ pivotModels df
      ∧ r.rater_a ≠ r.rater_b
      ∧ r.kappa = cohen_kappa_score (pivotCol df r.rater_a) (pivotCol df r.rater_b)
      ∧ (pivotCol df r.rater_a).length = r.n)
    ∧ (irr_rows df).length = Nat.choose (pivotModels df).length 2 := by
  constructor
  · intro r hr
    rw [irr_rows, List.mem_map] at hr
    obtain ⟨q, hq, rfl⟩ := hr
    obtain ⟨h1, h2⟩ := upairs_mem (pivotModels df) q hq
    exact ⟨rfl, h1, h2, upairs_ne (pivotModels df) (pivotModels_nodup df) q hq,
      rfl, by simp [pivotCol]⟩
  · rw [irr_rows, List.length_map, upairs_length]

/-- Witness for C3 amended at the concrete table `irr_example_df`:
the emitted row for models a, b carries `n` = size of the two-pair pivot
index. -/
theorem C3_agreement_over_union_witness :
    AgreeRow.mk "a" "b"
        (cohen_kappa_score (pivotCol irr_example_df "a") (pivotCol irr_example_df "b")) 2
      ∈ irr_rows irr_example_df
    ∧ (AgreeRow.mk "a" "b"
        (cohen_kappa_score (pivotCol irr_example_df "a") (pivotCol irr_example_df "b")) 2).n
      = (pivotPairs irr_example_df).length := by
  have hn : (pivotPairs irr_example_df).length = 2 := by decide
  have hmem : AgreeRow.mk "a" "b"
      (cohen_kappa_score (pivotCol irr_example_df "a") (pivotCol irr_example_df "b")) 2
      ∈ irr_rows irr_example_df := by
    rw [irr_rows, List.mem_map]
    refine ⟨("a", "b"), by decide, ?_⟩
    show AgreeRow.mk "a" "b"
        (cohen_kappa_score (pivotCol irr_example_df "a") (pivotCol irr_example_df "b"))
        ((pivotPairs irr_example_df).length) = _
    rw [hn]
  exact ⟨hmem, ((C3_agreement_over_union irr_example_df).1 _ hmem).1⟩

/-- Concrete rater table with two raters and zero overlapping labeled
pairs: `gpt` labels only `(p, blocking)`, `claude` labels only
`(q, timer)`. -/
def irr_example2_df : List LabelRow :=
  [⟨"p", "blocking", "gpt", 1⟩, ⟨"q", "timer", "claude", 0⟩]

/-- Counterexample to C8: on a table whose two raters overlap on zero
pairs, the code does not skip the pair and does not produce an empty
agreement table — it emits one row for the pair (over the imputed union,
`n = 2`). -/
theorem C8_zero_overlap_counterexample :
    overlapPairs irr_example2_df "claude" "gpt" = []
    ∧ overlapPairs irr_example2_df "gpt" "claude" = []
    ∧ (irr_rows irr_example2_df).map (fun r => (r.rater_a, r.rater_b, r.n))
        = [("claude", "gpt", 2)] := by
  refine ⟨by decide, by decide, by decide⟩

/-- C8, amended: with fewer than two raters the agreement table is empty
(and the embedding is a total function — no degenerate input raises); but
a pair of raters with zero overlap is not skipped: every unordered pair of
distinct raters gets an agreement row, overlap or not. -/
theorem C8_degenerate_cases (df : List LabelRow) :
    ((pivotModels df).length < 2 → irr_rows df = [])
    ∧ (∀ a b : String, a ∈ pivotModels df → b ∈ pivotModels df → a ≠ b →
        ∃ r ∈ irr_rows df,
          (r.rater_a = a ∧ r.rater_b = b) ∨ (r.rater_a = b ∧ r.rater_b = a)) := by
  constructor
  · intro h
    unfold irr_rows
    rcases hm : pivotModels df with _ | ⟨x, xs⟩
    · rfl
    · rcases xs with _ | ⟨y, ys⟩
      · rfl
      · rw [hm] at h
        simp only [List.length_cons] at h
        omega
  · intro a b ha hb hne
    rcases upairs_complete (pivotModels df) a b ha hb hne with h | h
    · refine ⟨⟨a, b, cohen_kappa_score (pivotCol df a) (pivotCol df b),
        (pivotPairs df).length⟩, ?_, Or.inl ⟨rfl, rfl⟩⟩
      rw [irr_rows, List.mem_map]
      exact ⟨(a, b), h, rfl⟩
    · refine ⟨⟨b, a, cohen_kappa_score (pivotCol df b) (pivotCol df a),
        (pivotPairs df).length⟩, ?_, Or.inr ⟨rfl, rfl⟩⟩
      rw [irr_rows, List.mem_map]
      exact ⟨(b, a), h, rfl⟩

/-- Concrete rater table with a single rater. -/
def irr_example3_df : List LabelRow := [⟨"x", "f", "solo", 1⟩]

/-- Witness for C8 amended: one rater gives an empty agreement table, and
the zero-overlap pair of `irr_example2_df` still receives a row. -/
theorem C8_degenerate_cases_witness :
    irr_rows irr_example3_df = []
    ∧ ∃ r ∈ irr_rows irr_example2_df,
        (r.rater_a = "claude" ∧ r.rater_b = "gpt")
        ∨ (r.rater_a = "gpt" ∧ r.rater_b = "claude") :=
  ⟨(C8_degenerate_cases irr_example3_df).1 (by decide),
   (C8_degenerate_cases irr_example2_df).2 "claude" "gpt" (by decide) (by decide)
     (by decide)⟩

/-! ### `etl/build_feature_matrix.py`: pivot of the long table and flatten

`load_feature_long` (lines 32-69) produces the long-form table
`(app_key, feature, flag, confidence, review_hits)`; when a feature CSV has
no `flag` column the flag is the 0/1 indicator of the two thresholds
(line 62).  `write_matrices` (line 74) pivots `flag` with `aggfunc="max"`,
`fill_value=0`, index `app_key` × sorted feature columns.  Flattening the
matrix back to long form while dropping zero cells yields the pairs whose
cell is nonzero.  Only the columns the pivot reads are modelled.
-/

/-- One row of the long-form feature table (columns the pivot uses). -/
structure LongRow where
  app_key : String
  feature : String
  flag : Nat
deriving DecidableEq, Repr

/-- The threshold flag of `load_feature_long` line 62:
`((confidence >= min_conf) & (review_hits >= min_hits)).astype(int)`. -/
def load_feature_flag (confidence : ℚ) (review_hits : Nat)
    (min_conf : ℚ) (min_hits : Nat) : Nat :=
  if min_conf ≤ confidence ∧ min_hits ≤ review_hits then 1 else 0

/-- The pivot index: distinct app keys of the long table. -/
def matrixAppKeys (tbl : List LongRow) : List String :=
  (tbl.map fun r => r.app_key).dedup

/-- The pivot columns: distinct features of the long table (sorting the
columns does not change the cell set). -/
def matrixFeatures (tbl : List LongRow) : List String :=
  (tbl.map fun r => r.feature).dedup

/-- One cell of the flags matrix: max of `flag` over the rows of the
`(app_key, feature)` pair, 0 when the pair has no row (`fill_value=0`). -/
def flagCell (tbl : List LongRow) (a f : String) : Nat :=
  ((tbl.filter fun r => r.app_key = a ∧ r.feature = f).map fun r => r.flag).foldr max 0

/-- Flattening the flags matrix back to long form, dropping zero cells:
the `(app_key, feature)` pairs of the matrix grid whose cell is nonzero. -/
def flattened_pairs (tbl : List LongRow) : List (String × String) :=
  (matrixAppKeys tbl).flatMap fun a =>
    (matrixFeatures tbl).filterMap fun f =>
      if flagCell tbl a f ≠ 0 then some (a, f) else none

/-- The `(app_key, feature)` pairs of the rows with `flag = 1` in the long
table. -/
def flag1_pairs (tbl : List LongRow) : List (String × String) :=
  (tbl.filter fun r => r.flag = 1).map fun r => (r.app_key, r.feature)

theorem foldr_max_ne_zero (l : List Nat) :
    l.foldr max 0 ≠ 0 ↔ ∃ x ∈ l, x ≠ 0 := by
  induction l with
  | nil => simp
  | cons x xs ih =>
      have hsplit : max x (List.foldr max 0 xs) ≠ 0
          ↔ x ≠ 0 ∨ List.foldr max 0 xs ≠ 0 := by omega
      rw [List.foldr_cons, hsplit]
      constructor
      · rintro (hx | hr)
        · exact ⟨x, List.mem_cons_self x xs, hx⟩
        · obtain ⟨y, hy, hy0⟩ := ih.mp hr
          exact ⟨y, List.mem_cons_of_mem x hy, hy0⟩
      · rintro ⟨y, hy, hy0⟩
        rw [List.mem_cons] at hy
        rcases hy with rfl | hy
        · exact Or.inl hy0
        · exact Or.inr (ih.mpr ⟨y, hy, hy0⟩)

/-- C6: pivoting the long-form table to the flags matrix (aggregation max,
fill 0) and flattening back while dropping zero cells yields exactly the
`(app_key, feature)` pairs of the rows with `flag = 1`, for every long
table with 0/1 flags (the Feature Label data model; the threshold flag of
`load_feature_long` is such an indicator). -/
theorem C6_pivot_flatten_roundtrip (tbl : List LongRow)
    (hbin : ∀ r ∈ tbl, r.flag = 0 ∨ r.flag = 1) (a f : String) :
    (a, f) ∈ flattened_pairs tbl ↔ (a, f) ∈ flag1_pairs tbl := by
  constructor
  · intro h
    rw [flattened_pairs, List.mem_flatMap] at h
    obtain ⟨a', _, h⟩ := h
    rw [List.mem_filterMap] at h
    obtain ⟨f', _, h⟩ := h
    split_ifs at h with hcell
    · rw [Option.some_inj] at h
      obtain ⟨rfl, rfl⟩ := Prod.mk.injEq .. ▸ h
      rw [flagCell, foldr_max_ne_zero] at hcell
      obtain ⟨x, hx, hx0⟩ := hcell
      rw [List.mem_map] at hx
      obtain ⟨r, hr, rfl⟩ := hx
      rw [List.mem_filter] at hr
      obtain ⟨hrt, hrk⟩ := hr
      rw [decide_eq_true_eq] at hrk
      rw [flag1_pairs, List.mem_map]
      refine ⟨r, ?_, by rw [hrk.1, hrk.2]⟩
      rw [List.mem_filter, decide_eq_true_eq]
      rcases hbin r hrt with h0 | h1
      · exact absurd h0 hx0
      · exact ⟨hrt, h1⟩
  · intro h
    rw [flag1_pairs, List.mem_map] at h
    obtain ⟨r, hr, heq⟩ := h
    rw [List.mem_filter, decide_eq_true_eq] at hr
    obtain ⟨hrt, hr1⟩ := hr
    obtain ⟨rfl, rfl⟩ := Prod.mk.injEq .. ▸ heq
    rw [flattened_pairs, List.mem_flatMap]
    refine ⟨r.app_key, List.mem_dedup.mpr (List.mem_map.mpr ⟨r, hrt, rfl⟩), ?_⟩
    rw [List.mem_filterMap]
    refine ⟨r.feature, List.mem_dedup.mpr (List.mem_map.mpr ⟨r, hrt, rfl⟩), ?_⟩
    rw [if_pos, Option.some_inj]
    rw [flagCell, foldr_max_ne_zero]
    refine ⟨r.flag, ?_, by omega⟩
    rw [List.mem_map]
    refine ⟨r, ?_, rfl⟩
    rw [List.mem_filter, decide_eq_true_eq]
    exact ⟨hrt, rfl, rfl⟩

/-- Concrete long table for the C6 witness. -/
def matrix_example_tbl : List LongRow :=
  [⟨"app1", "blocking", 1⟩, ⟨"app1", "timer", 0⟩, ⟨"app2", "blocking", 0⟩]

/-- Witness for C6 on a concrete three-row table: the flagged pair
round-trips, the unflagged pair does not appear. -/
theorem C6_pivot_flatten_roundtrip_witness :
    (("app1", "blocking") ∈ flattened_pairs matrix_example_tbl
      ↔ ("app1", "blocking") ∈ flag1_pairs matrix_example_tbl)
    ∧ (("app1", "timer") ∈ flattened_pairs matrix_example_tbl
      ↔ ("app1", "timer") ∈ flag1_pairs matrix_example_tbl) :=
  ⟨C6_pivot_flatten_roundtrip matrix_example_tbl (by decide) "app1" "blocking",
   C6_pivot_flatten_roundtrip matrix_example_tbl (by decide) "app1" "timer"⟩

/-! ### `etl/build_feature_matrix.py` `maybe_bundle`: the sentiment collapse

When the sentiment table has a `country` column, lines 119-122 collapse it
to one row per `app_key` with
`s.groupby("app_key", as_index=False).agg({c: "mean" for c in s.columns if c not in {"app_key", "store", "country"}})`
— a plain, unweighted mean of every remaining column.  Two of those
columns are modelled (`avg_rating`, `n_reviews`); the `.agg` dict treats
every other metric column identically.
-/

/-- One country-level row of `app_sentiment.csv` (modelled columns). -/
structure SentRow where
  app_key : String
  country : String
  avg_rating : ℚ
  n_reviews : ℚ
deriving DecidableEq, Repr

/-- Unweighted column mean (pandas `"mean"` aggregation over a group). -/
def qmean (l : List ℚ) : ℚ := l.sum / l.length

/-- The country collapse of `maybe_bundle` lines 119-122: group rows by
`app_key` and take the unweighted mean of each metric column. -/
def collapse_country (rows : List SentRow) : List (String × ℚ × ℚ) :=
  ((rows.map fun r => r.app_key).dedup).map fun k =>
    (k, qmean ((rows.filter fun r => r.app_key = k).map fun r => r.avg_rating),
     qmean ((rows.filter fun r => r.app_key = k).map fun r => r.n_reviews))

/-- Follows the spec's words (section 4.8 and testable property 4), for
comparison with the code's `collapse_country`: when collapsing country
rows to one row per `app_key`, every averaged metric must be weighted by
the per-row review count `n_reviews`; if the total weight is 0, fall back
to the unweighted mean.  Shown for the `avg_rating` column. -/
def spec_weighted_avg_rating (rows : List SentRow) : List (String × ℚ) :=
  ((rows.map fun r => r.app_key).dedup).map fun k =>
    (k, if ((rows.filter fun r => r.app_key = k).map fun r => r.n_reviews).sum = 0
        then qmean ((rows.filter fun r => r.app_key = k).map fun r => r.avg_rating)
        else ((rows.filter fun r => r.app_key = k).map
                fun r => r.n_reviews * r.avg_rating).sum
          / ((rows.filter fun r => r.app_key = k).map fun r => r.n_reviews).sum)

/-- The spec's synthetic three-country input: review counts {10, 0, 90},
average ratings {1.0, 5.0, 5.0}. -/
def sent_example_rows : List SentRow :=
  [⟨"a", "US", 1, 10⟩, ⟨"a", "GB", 5, 0⟩, ⟨"a", "DE", 5, 90⟩]

/-- C2: on the spec's own test vector the code's collapse returns the
naive unweighted mean avg_rating 11/3 ≈ 3.67, while the spec's
review-count-weighted rule requires 23/5 = 4.6 — the code contradicts the
spec's explicit weighting requirement (and also averages `n_reviews`
itself instead of summing it). -/
theorem C2_unweighted_collapse_bug :
    collapse_country sent_example_rows = [("a", 11/3, 100/3)]
    ∧ spec_weighted_avg_rating sent_example_rows = [("a", 23/5)]
    ∧ ((11 : ℚ)/3 ≠ 23/5) := by
  have hd : ((sent_example_rows.map fun r => r.app_key).dedup) = ["a"] := by decide
  refine ⟨?_, ?_, by norm_num⟩
  · unfold collapse_country
    rw [hd]
    norm_num [sent_example_rows, qmean, List.filter]
  · unfold spec_weighted_avg_rating
    rw [hd]
    norm_num [sent_example_rows, qmean, List.filter]

/-! ### `etl/clean_apps.py`: app-table deduplication (lines 49-57)

The source sorts by the helper columns
`_t = to_datetime(scraped_at, errors="coerce")` and
`_rc = to_numeric(rating_count, errors="coerce")`, ascending, and keeps the
last row per `app_key`.  pandas' multi-column sort is a stable lexicographic
sort in which `NaT`/`NaN` keys are placed *after* every valid value
(`na_position="last"`), and `NaT` keys tie with each other.  Timestamps are
modelled as `Option Nat` (`none` = `NaT`, order-isomorphic image of
`to_datetime`), counts as `Option ℚ` (`none` = `NaN`).  `rowLe` is exactly
that sort key order: lexicographic on `(_t, _rc)` with `none` greatest;
`keptRow` is stable-sort-then-keep-last, so per key the positionally last
row among the `rowLe`-maximal ones survives — as in pandas.
-/

/-- One row of the normalized app table (the columns the dedup reads). -/
structure AppRow where
  app_key : String
  scraped_at : Option Nat
  rating_count : Option ℚ
deriving DecidableEq, Repr

/-- Sort order of the `_t` column: ascending with `NaT` (`none`) last. -/
def naLeN (x y : Option Nat) : Bool :=
  match x, y with
  | _, none => true
  | none, some _ => false
  | some a, some b => a ≤ b

/-- Sort order of the `_rc` column: ascending with `NaN` (`none`) last. -/
def naLeQ (x y : Option ℚ) : Bool :=
  match x, y with
  | _, none => true
  | none, some _ => false
  | some a, some b => a ≤ b

/-- The lexicographic sort-key order of `sort_values(["_t", "_rc"])`. -/
def rowLe (a b : AppRow) : Bool :=
  if a.scraped_at = b.scraped_at then naLeQ a.rating_count b.rating_count
  else naLeN a.scraped_at b.scraped_at

/-- Relation form of `rowLe`. -/
def RowLe (a b : AppRow) : Prop := rowLe a b = true

instance : DecidableRel RowLe := fun a b => by
  unfold RowLe
  infer_instance

theorem naLeN_total (x y : Option Nat) : naLeN x y = true ∨ naLeN y x = true := by
  cases x <;> cases y <;> (simp [naLeN]; try omega)

theorem naLeN_trans (x y z : Option Nat) :
    naLeN x y = true → naLeN y z = true → naLeN x z = true := by
  cases x <;> cases y <;> cases z <;> (simp [naLeN]; try omega)

theorem naLeN_antisymm (x y : Option Nat) :
    naLeN x y = true → naLeN y x = true → x = y := by
  cases x <;> cases y <;> (simp [naLeN]; try omega)

theorem naLeQ_refl (x : Option ℚ) : naLeQ x x = true := by
  cases x <;> simp [naLeQ]

theorem naLeQ_total (x y : Option ℚ) : naLeQ x y = true ∨ naLeQ y x = true := by
  cases x <;> cases y <;> simp [naLeQ]
  exact le_total _ _

theorem naLeQ_trans (x y z : Option ℚ) :
    naLeQ x y = true → naLeQ y z = true → naLeQ x z = true := by
  cases x <;> cases y <;> cases z <;> simp [naLeQ]
  exact le_trans

instance : IsRefl AppRow RowLe :=
  ⟨fun a => by
    unfold RowLe rowLe
    rw [if_pos rfl]
    exact naLeQ_refl _⟩

instance : IsTotal AppRow RowLe :=
  ⟨fun a b => by
    unfold RowLe rowLe
    by_cases h : a.scraped_at = b.scraped_at
    · rw [if_pos h, if_pos h.symm]
      exact naLeQ_total _ _
    · rw [if_neg h, if_neg (Ne.symm h)]
      exact naLeN_total _ _⟩

instance : IsTrans AppRow RowLe :=
  ⟨fun a b c hab hbc => by
    unfold RowLe rowLe at *
    by_cases h1 : a.scraped_at = b.scraped_at
    · by_cases h2 : b.scraped_at = c.scraped_at
      · rw [if_pos h1] at hab
        rw [if_pos h2] at hbc
        rw [if_pos (h1.trans h2)]
        exact naLeQ_trans _ _ _ hab hbc
      · rw [if_neg h2] at hbc
        rw [if_neg (h1 ▸ h2), h1]
        exact hbc
    · by_cases h2 : b.scraped_at = c.scraped_at
      · rw [if_neg h1] at hab
        rw [if_neg (h2 ▸ h1), ← h2]
        exact hab
      · rw [if_neg h1] at hab
        rw [if_neg h2] at hbc
        have h3 : a.scraped_at ≠ c.scraped_at := by
          intro he
          exact h1 (naLeN_antisymm _ _ hab (he ▸ hbc))
        rw [if_neg h3]
        exact naLeN_trans _ _ _ hab hbc⟩

/-- The stable ascending sort of the dedup step (line 55). -/
def sortRows (l : List AppRow) : List AppRow := List.insertionSort RowLe l

/-- Model of `drop_duplicates(subset=["app_key"], keep="last")` seen per key: the
row that survives for `app_key = k` is the last row with that key in the
sorted order. -/
def keptRow (l : List AppRow) (k : String) : Option AppRow :=
  ((sortRows l).filter fun r => r.app_key = k).getLast?

/-- In a `Pairwise R` list the last element is an `R`-upper bound. -/
theorem getLast?_pairwise_ub {α : Type} {R : α → α → Prop} [IsRefl α R] :
    ∀ (l : List α) (y : α), l.Pairwise R → l.getLast? = some y →
      ∀ x ∈ l, R x y := by
  intro l
  induction l with
  | nil =>
      intro y _ h
      simp at h
  | cons a l ih =>
      intro y hp hl x hx
      cases l with
      | nil =>
          have hya : y = a := by
            rw [List.getLast?_singleton, Option.some_inj] at hl
            exact hl.symm
          rw [List.mem_singleton] at hx
          rw [hya, hx]
          exact refl_of R a
      | cons b m =>
          have hl' : (b :: m).getLast? = some y := by
            rwa [List.getLast?_cons_cons] at hl
          rw [List.mem_cons] at hx
          rcases hx with rfl | hx
          · have hy : y ∈ b :: m := by
              rcases List.mem_of_mem_getLast? hl' with h
              exact h
            exact (List.pairwise_cons.mp hp).1 y hy
          · exact ih y (List.pairwise_cons.mp hp).2 hl' x hx

/-- C9, amended: the surviving row per `app_key` is a row of that key,
maximal in the sort-key order `RowLe` — i.e. most recent `scraped_at` with
ties broken by highest `rating_count`, except that a missing/unparseable
`scraped_at` (`NaT`) sorts after every valid timestamp and a missing
`rating_count` after every valid count, so they win the dedup; and
whenever the key occurs at all, some row survives. -/
theorem C9_dedup_keeps_sort_max (rows : List AppRow) (k : String) :
    (∀ r, keptRow rows k = some r →
      r ∈ rows ∧ r.app_key = k ∧ ∀ s ∈ rows, s.app_key = k → RowLe s r)
    ∧ ((∃ s ∈ rows, s.app_key = k) → keptRow rows k ≠ none) := by
  constructor
  · intro r h
    have hsorted : (sortRows rows).Pairwise RowLe :=
      List.sorted_insertionSort RowLe rows
    have hsf : ((sortRows rows).filter fun r => r.app_key = k).Pairwise RowLe :=
      hsorted.filter _
    have hrmem : r ∈ (sortRows rows).filter fun r => r.app_key = k :=
      List.mem_of_mem_getLast? h
    have hr2 := List.mem_filter.mp hrmem
    refine ⟨(List.perm_insertionSort RowLe rows).mem_iff.mp hr2.1,
      of_decide_eq_true hr2.2, ?_⟩
    intro s hs hsk
    have hsmem : s ∈ (sortRows rows).filter fun r => r.app_key = k :=
      List.mem_filter.mpr ⟨(List.perm_insertionSort RowLe rows).mem_iff.mpr hs,
        decide_eq_true hsk⟩
    exact getLast?_pairwise_ub _ r hsf h s hsmem
  · rintro ⟨s, hs, hsk⟩ hnone
    have hsmem : s ∈ (sortRows rows).filter fun r => r.app_key = k :=
      List.mem_filter.mpr ⟨(List.perm_insertionSort RowLe rows).mem_iff.mpr hs,
        decide_eq_true hsk⟩
    rw [keptRow, List.getLast?_eq_none_iff] at hnone
    rw [hnone] at hsmem
    simp at hsmem

/-- Two rows of one key: a valid recent timestamp versus a missing
(`NaT`) timestamp. -/
def apps_example_rows : List AppRow :=
  [⟨"a", some 5, some 10⟩, ⟨"a", none, some 0⟩]

/-- Counterexample to C9: the dedup does not keep the row with the most
recent `scraped_at` — the row whose `scraped_at` failed to parse (`NaT`
sorts last) survives instead of the row with the valid, most recent
timestamp. -/
theorem C9_missing_timestamp_counterexample :
    keptRow apps_example_rows "a" = some ⟨"a", none, some 0⟩
    ∧ keptRow apps_example_rows "a" ≠ some ⟨"a", some 5, some 10⟩ := by
  constructor
  · decide
  · decide

/-- Witness for C9 amended on `apps_example_rows`: the surviving row is in
the table and dominates the valid-timestamp row in the sort order. -/
theorem C9_dedup_keeps_sort_max_witness :
    (⟨"a", none, some 0⟩ : AppRow) ∈ apps_example_rows
    ∧ RowLe ⟨"a", some 5, some 10⟩ ⟨"a", none, some 0⟩ := by
  have h := (C9_dedup_keeps_sort_max apps_example_rows "a").1
    ⟨"a", none, some 0⟩ (by decide)
  exact ⟨h.1, h.2.2 ⟨"a", some 5, some 10⟩ (by decide) rfl⟩

end AppAnalysis
